import Mathlib

/-!
Verification of the s3-algo bulk object-storage orchestration layer.

The definitions below are a shallow embedding of the repository's
listing / bulk-operation engine (src/list_actions.rs) together with
spec-modelled stand-ins for the parts of the crate whose source is not
available here (the upload orchestrator's reorder buffer and the
timeout estimator).  Streams are embedded as lists of their items,
futures as values of Except, and the storage client as a pure oracle
function supplied as a parameter.
-/

namespace S3Algo

/-- Embedding of rusoto_s3::Object restricted to the fields the code
reads: both key and size are optional. -/
structure S3Object where
  key : Option String
  size : Option Int
deriving DecidableEq, Repr

/-- Embedding of rusoto_s3::ListObjectsV2Output restricted to the fields
the code reads: the optional contents list and the optional
continuation token for the next page. -/
structure ListObjectsV2Output where
  contents : Option (List S3Object)
  next_continuation_token : Option String
deriving DecidableEq, Repr

/-- One page result of a listing request, as in
type ListObjectsV2Result = Result of ListObjectsV2Output or error.
The error type is kept abstract. -/
abbrev ListResult (ε : Type) := Except ε ListObjectsV2Output

def exToSum {ε α : Type _} : Except ε α → Sum ε α
  | .ok a => .inr a
  | .error e => .inl e

instance {ε α : Type _} [DecidableEq ε] [DecidableEq α] :
    DecidableEq (Except ε α) := fun a b =>
  decidable_of_iff (exToSum a = exToSum b) (by cases a <;> cases b <;> simp [exToSum])

/-! ### Stream combinators

List-level embeddings of the futures::TryStreamExt combinators used by
list_actions.rs.  A fallible stream is a list of Except items. -/

/-- Embedding of TryStreamExt::try_filter_map with a pure filter
function: an ok item is kept iff the function returns some; error
items pass through. -/
def tryFilterMapL {ε α β : Type _} (f : α → Option β) :
    List (Except ε α) → List (Except ε β)
  | [] => []
  | .ok a :: rest =>
    (match f a with
     | some b => [Except.ok b]
     | none => []) ++ tryFilterMapL f rest
  | .error e :: rest => .error e :: tryFilterMapL f rest

/-- Embedding of TryStreamExt::map_ok: ok items are mapped, error items
pass through. -/
def mapOkL {ε α β : Type _} (f : α → β) :
    List (Except ε α) → List (Except ε β) :=
  List.map fun it =>
    match it with
    | .ok a => .ok (f a)
    | .error e => .error e

/-- Embedding of TryStreamExt::try_flatten on a stream whose ok items
are themselves streams: inner items are emitted in order, outer error
items pass through. -/
def tryFlattenL {ε β : Type _} :
    List (Except ε (List (Except ε β))) → List (Except ε β)
  | [] => []
  | .ok l :: rest => l ++ tryFlattenL rest
  | .error e :: rest => .error e :: tryFlattenL rest

/-- Embedding of TryStreamExt::and_then with a pure step that also
reports which storage call it made: ok items are passed to the step,
error items pass through with no call made. -/
def andThenTraceL {ε α β τ : Type _} (f : α → τ × Except ε β) :
    List (Except ε α) → List (Option τ × Except ε β) :=
  List.map fun it =>
    match it with
    | .ok a => (some (f a).1, (f a).2)
    | .error e => (none, .error e)

/-- Embedding of ListObjects::flatten (list_actions.rs):
stream.try_filter_map(contents).map_ok(iter).try_flatten. -/
def flattenLO {ε : Type _} (pages : List (ListResult ε)) :
    List (Except ε S3Object) :=
  tryFlattenL (mapOkL (fun x => x.map Except.ok)
    (tryFilterMapL (fun r => r.contents) pages))

/-- Stated from the claim's words, for comparison with flattenLO: the
page sequence re-exposed as individual records, discarding any entry
missing a key or a size. -/
def flattenClaimed {ε : Type _} (pages : List (ListResult ε)) :
    List (Except ε S3Object) :=
  pages.flatMap fun r =>
    match r with
    | .ok p =>
      ((p.contents.getD []).filter fun o => o.key.isSome && o.size.isSome).map .ok
    | .error e => [.error e]

/-! ### Pagination engine: S3Algo::list_objects (list_actions.rs) -/

/-- Embedding of rusoto_s3::ListObjectsV2Request restricted to the
fields list_actions.rs manipulates. -/
structure ListObjectsV2Request where
  bucket : String
  reqPre : Option String
  continuation_token : Option String
deriving DecidableEq, Repr

/-- The request issued by one pull of the stream: the factory's
request with the current continuation token substituted in. -/
def issuedReq (factory : Unit → ListObjectsV2Request) (cont : Option String) :
    ListObjectsV2Request :=
  { factory () with continuation_token := cont }

/-- One step of the futures::stream::unfold closure inside
list_objects: state is (next continuation token, first request).  The
step stops when the token is none and it is not the first request;
otherwise it issues one listing request with the continuation token
substituted into the factory's request, captures the next token from
the response (none on error), and yields the result. -/
def listStep {ε : Type _} (s3 : ListObjectsV2Request → ListResult ε)
    (factory : Unit → ListObjectsV2Request) (st : Option String × Bool) :
    Option (ListResult ε × (Option String × Bool)) :=
  if st.1 = none ∧ st.2 = false then none
  else
    let result := s3 (issuedReq factory st.1)
    let next_cont :=
      match result with
      | .ok response => response.next_continuation_token
      | .error _ => none
    some (result, (next_cont, false))

/-- Fuel-bounded unrolling of the unfold stream from a given state. -/
def listPages {ε : Type _} (s3 : ListObjectsV2Request → ListResult ε)
    (factory : Unit → ListObjectsV2Request) :
    Nat → Option String × Bool → List (ListResult ε)
  | 0, _ => []
  | fuel + 1, st =>
    match listStep s3 factory st with
    | none => []
    | some (r, st') => r :: listPages s3 factory fuel st'

/-- Embedding of S3Algo::list_objects: the page stream starts in state
(token = none, first = true). -/
def list_objects {ε : Type _} (s3 : ListObjectsV2Request → ListResult ε)
    (factory : Unit → ListObjectsV2Request) (fuel : Nat) :
    List (ListResult ε) :=
  listPages s3 factory fuel (none, true)

/-- Next continuation token captured from a page result: the
response's token on success, none on error. -/
def nextContOf {ε : Type _} : ListResult ε → Option String
  | .ok response => response.next_continuation_token
  | .error _ => none

/-- Continuation token in effect for the request that produced the
i-th element of a trace whose first request used token c. -/
def tokenAt {ε : Type _} (c : Option String) (trace : List (ListResult ε)) :
    Nat → Option String
  | 0 => c
  | i + 1 =>
    match trace.get? i with
    | some r => nextContOf r
    | none => none

/-! ### Bulk operations built on the listing stream (list_actions.rs) -/

/-- One batched delete issued by delete_all: the retry budget passed
to s3_request, the bucket, and the object identifier keys. -/
structure DeleteObjectsCall where
  attempts : Nat
  bucket : String
  keys : List String
deriving DecidableEq, Repr

/-- Embedding of the item preprocessing in delete_all:
stream.filter_map(response.map(contents).transpose()): an ok page
contributes its contents list when present, an error page contributes
the error, a page without contents is dropped. -/
def deleteAllItems {ε : Type _} (pages : List (ListResult ε)) :
    List (Except ε (List S3Object)) :=
  pages.filterMap fun r =>
    match r with
    | .ok p => p.contents.map Except.ok
    | .error e => some (.error e)

/-- Embedding of the try_for_each body of delete_all: for each
contents list, one delete_objects request against the listing's
bucket naming the keys of the listed objects that have one, executed
through s3_request with attempt budget 10; the run records the issued
calls and stops at the first failure. -/
def runDeletes {ε : Type _} (bucket : String)
    (del : DeleteObjectsCall → Except ε Unit) :
    List (Except ε (List S3Object)) → List DeleteObjectsCall × Except ε Unit
  | [] => ([], .ok ())
  | .error e :: _ => ([], .error e)
  | .ok contents :: rest =>
    let call : DeleteObjectsCall :=
      ⟨10, bucket, contents.filterMap fun obj => obj.key⟩
    match del call with
    | .error e => ([call], .error e)
    | .ok _ =>
      let next := runDeletes bucket del rest
      (call :: next.1, next.2)

/-- Embedding of ListObjects::delete_all. -/
def delete_all {ε : Type _} (bucket : String)
    (del : DeleteObjectsCall → Except ε Unit) (pages : List (ListResult ε)) :
    List DeleteObjectsCall × Except ε Unit :=
  runDeletes bucket del (deleteAllItems pages)

/-- Embedding of rusoto_s3::CopyObjectRequest restricted to the fields
copy_all_stream sets; defaults stands for the remaining fields taken
from the default request. -/
structure CopyObjectRequest where
  copy_source : String
  bucket : String
  key : String
  defaults : String
deriving DecidableEq, Repr

/-- One copy_object invocation through the retry engine. -/
structure CopyCall where
  attempts : Nat
  req : CopyObjectRequest
deriving DecidableEq, Repr

/-- The record pipeline shared by download_all_stream and
copy_all_stream: pages flattened to objects, then filtered to the
(key, size) pairs where both fields are present. -/
def objectsKS {ε : Type _} (pages : List (ListResult ε)) :
    List (Except ε (String × Int)) :=
  tryFilterMapL
    (fun obj => obj.key.bind fun key => obj.size.map fun size => (key, size))
    (flattenLO pages)

/-- Embedding of ListObjects::copy_all_stream: per listed (key, size)
record, one copy_object request through the retry engine with attempt
budget 10 whose copy_source is bucket/key and whose destination
bucket/key are dest_bucket (default: the source bucket) and
mapping(key); on success the stream yields the source key. -/
def copy_all_stream {ε : Type _} (bucket : String) (dest_bucket : Option String)
    (mapping : String → String) (default_request : Unit → CopyObjectRequest)
    (copyFn : Nat → CopyObjectRequest → Except ε Unit)
    (pages : List (ListResult ε)) :
    List (Option CopyCall × Except ε String) :=
  let dest := dest_bucket.getD bucket
  andThenTraceL
    (fun ks =>
      let request := { default_request () with
        copy_source := bucket ++ "/" ++ ks.1
        bucket := dest
        key := mapping ks.1 }
      ((⟨10, request⟩ : CopyCall), (copyFn 10 request).map fun _ => ks.1))
    (objectsKS pages)

/-- Embedding of rusoto_s3::DeleteObjectRequest restricted to the
fields move_all sets. -/
structure DeleteObjectRequest where
  bucket : String
  key : String
deriving DecidableEq, Repr

/-- One delete_object invocation through the retry engine. -/
structure DeleteObjectCall where
  attempts : Nat
  req : DeleteObjectRequest
deriving DecidableEq, Repr

/-- Embedding of the and_then/try_for_each chain of move_all: for each
source key yielded by copy_all_stream, one delete_object request
against the source bucket with that key, through s3_request with
attempt budget 10; stops at the first error. -/
def moveDeletes {ε : Type _} (src_bucket : String)
    (deleteFn : Nat → DeleteObjectRequest → Except ε Unit) :
    List (Except ε String) → List DeleteObjectCall × Except ε Unit
  | [] => ([], .ok ())
  | .error e :: _ => ([], .error e)
  | .ok src_key :: rest =>
    let delete_request : DeleteObjectRequest := ⟨src_bucket, src_key⟩
    match deleteFn 10 delete_request with
    | .error e => ([⟨10, delete_request⟩], .error e)
    | .ok _ =>
      let next := moveDeletes src_bucket deleteFn rest
      (⟨10, delete_request⟩ :: next.1, next.2)

/-- Embedding of ListObjects::move_all: chains a per-key delete after
copy_all_stream and drains the stream; returns the copy calls, the
delete calls and the overall outcome. -/
def move_all {ε : Type _} (bucket : String) (dest_bucket : Option String)
    (mapping : String → String) (default_request : Unit → CopyObjectRequest)
    (copyFn : Nat → CopyObjectRequest → Except ε Unit)
    (deleteFn : Nat → DeleteObjectRequest → Except ε Unit)
    (pages : List (ListResult ε)) :
    List CopyCall × List DeleteObjectCall × Except ε Unit :=
  let s := copy_all_stream bucket dest_bucket mapping default_request copyFn pages
  (s.filterMap Prod.fst, moveDeletes bucket deleteFn (s.map Prod.snd))

/-- Fuel-bounded embedding of Rust str::trim_start_matches on
character lists: repeatedly removes the pattern from the front while
it is a prefix; an empty pattern removes nothing.  The fuel only needs
to be at least the subject's length since every removal strips at
least one character. -/
def trimStartMatchesGo (pat : List Char) : Nat → List Char → List Char
  | 0, s => s
  | fuel + 1, s =>
    if pat ≠ [] ∧ pat <+: s then trimStartMatchesGo pat fuel (s.drop pat.length)
    else s

/-- Embedding of str::trim_start_matches on strings. -/
def trim_start_matches (pat s : String) : String :=
  String.mk (trimStartMatchesGo pat.data s.data.length s.data)

/-- Embedding of the substitute closure in move_to_prefix:
new prefix ++ trim_start_matches(old listed prefix, source key). -/
def substitutePrefixFn (newPre oldPre source : String) : String :=
  newPre ++ trim_start_matches oldPre source

/-- Embedding of ListObjects::move_to_prefix: move_all with the
mapping specialized to prefix substitution, where listedPre is the
listing's captured common prefix. -/
def moveToPrefix {ε : Type _} (bucket listedPre : String)
    (dest_bucket : Option String) (newPre : String)
    (default_request : Unit → CopyObjectRequest)
    (copyFn : Nat → CopyObjectRequest → Except ε Unit)
    (deleteFn : Nat → DeleteObjectRequest → Except ε Unit)
    (pages : List (ListResult ε)) :
    List CopyCall × List DeleteObjectCall × Except ε Unit :=
  move_all bucket dest_bucket
    (fun source => substitutePrefixFn newPre listedPre source)
    default_request copyFn deleteFn pages

/-- Embedding of rusoto_s3::GetObjectRequest restricted to the fields
download_all_stream sets; defaults stands for the remaining fields
taken from the default request. -/
structure GetObjectRequest where
  bucket : String
  key : String
  defaults : String
deriving DecidableEq, Repr

/-- One get_object invocation through the retry engine. -/
structure GetCall where
  attempts : Nat
  req : GetObjectRequest
deriving DecidableEq, Repr

/-- Embedding of rusoto_s3::GetObjectOutput restricted to the optional
body the code reads. -/
structure GetObjectOutput (β : Type _) where
  body : Option β
deriving DecidableEq, Repr

/-- Embedding of ListObjects::download_all_stream before the final
body filter: per listed (key, size) record, one get_object request
through the retry engine with attempt budget 10 against the listing's
bucket, the response paired with the key. -/
def download_all_raw {ε β : Type _} (bucket : String)
    (default_request : Unit → GetObjectRequest)
    (getFn : Nat → GetObjectRequest → Except ε (GetObjectOutput β))
    (pages : List (ListResult ε)) :
    List (Option GetCall × Except ε (Option (String × β))) :=
  andThenTraceL
    (fun ks =>
      let request := { default_request () with bucket := bucket, key := ks.1 }
      ((⟨10, request⟩ : GetCall),
       (getFn 10 request).map fun response =>
         response.body.map fun body => (ks.1, body)))
    (objectsKS pages)

/-- Embedding of ListObjects::download_all_stream: the raw stream with
bodiless responses filtered out. -/
def download_all_stream {ε β : Type _} (bucket : String)
    (default_request : Unit → GetObjectRequest)
    (getFn : Nat → GetObjectRequest → Except ε (GetObjectOutput β))
    (pages : List (ListResult ε)) :
    List (Except ε (String × β)) :=
  tryFilterMapL id
    ((download_all_raw bucket default_request getFn pages).map Prod.snd)

/-! ### Spec-modelled: the Upload Orchestrator's reorder buffer -/

/-- Modelled from the spec: the reorder buffer of the Upload
Orchestrator (s3_upload_files lives in the crate root, whose source is
not available under src/).  State: the set of completed-but-unreleased
sequence numbers, the next sequence number due for release, and the
sequence numbers already released to the callback, in order. -/
structure ReorderState where
  buf : Finset Nat
  next : Nat
  released : List Nat

/-- Modelled from the spec: the release loop — while the next-expected
sequence number is in the buffer, release it to the callback and
advance. -/
def drainRB (buf : Finset Nat) (next : Nat) (out : List Nat) : ReorderState :=
  if h : next ∈ buf then drainRB (buf.erase next) (next + 1) (out ++ [next])
  else ⟨buf, next, out⟩
termination_by buf.card
decreasing_by exact Finset.card_erase_lt_of_mem h

/-- Modelled from the spec: one upload completion carrying sequence
number i enters the reorder buffer, then every eligible result is
released in ascending sequence order. -/
def rbStep (st : ReorderState) (i : Nat) : ReorderState :=
  drainRB (insert i st.buf) st.next st.released

/-- Modelled from the spec: s3_upload_files pulls its sources in input
order, assigning sequence numbers 0, 1, 2, …; uploads complete in an
arbitrary order (whatever interleaving the concurrency bound allows is
some permutation of the sequence numbers) and results are delivered to
the callback through the reorder buffer.  Given the completion order,
this returns the seq fields of the successive callback invocations. -/
def uploadCallbackSeqs (completionOrder : List Nat) : List Nat :=
  (completionOrder.foldl rbStep ⟨∅, 0, []⟩).released

/-- Invariant tying a reorder-buffer state to the set A of sequence
numbers that have completed so far. -/
def RBInv (A : Finset Nat) (st : ReorderState) : Prop :=
  st.released = List.range st.next
  ∧ st.buf = A \ Finset.range st.next
  ∧ st.next ∉ A
  ∧ Finset.range st.next ⊆ A

/-! ### Spec-modelled: the timeout estimator (timeout.rs) -/

/-- Modelled from the spec: the configuration fields of UploadConfig
that drive the timeout estimator (the crate's timeout.rs is not
available under src/; field names follow the test in src/test.rs).
Real-valued quantities are embedded as rationals. -/
structure UploadConfig where
  expected_upload_speed : ℚ
  backoff : ℚ
  avg_min_bytes : Nat
  min_timeout : ℚ
  timeout_fraction : ℚ
  avg_power : ℚ
deriving DecidableEq, Repr

/-- Modelled from the spec: TimeoutState holds the configuration and
the current bandwidth estimate, seeded from expected_upload_speed. -/
structure TimeoutState where
  cfg : UploadConfig
  estimate : ℚ
deriving DecidableEq, Repr

/-- Modelled from the spec: TimeoutState::new seeds the estimate from
the configured expected upload speed. -/
def TimeoutState.new (cfg : UploadConfig) : TimeoutState :=
  ⟨cfg, cfg.expected_upload_speed⟩

/-- Modelled from the spec: get_timeout(bytes, attempt) =
max(min_timeout, timeout_fraction * bytes / estimate *
backoff^(attempt - 1)). -/
def TimeoutState.get_timeout (st : TimeoutState) (bytes : Nat) (attempt : Nat) : ℚ :=
  max st.cfg.min_timeout
    (st.cfg.timeout_fraction * bytes / st.estimate
      * st.cfg.backoff ^ (attempt - 1))

lemma listStep_eq {ε : Type _} (s3 : ListObjectsV2Request → ListResult ε)
    (factory : Unit → ListObjectsV2Request) (cont : Option String) (first : Bool)
    (h : ¬(cont = none ∧ first = false)) :
    listStep s3 factory (cont, first)
      = some (s3 (issuedReq factory cont),
              (nextContOf (s3 (issuedReq factory cont)), false)) := by
  unfold listStep
  rw [if_neg h]
  cases hr : s3 (issuedReq factory cont) <;> simp [nextContOf, hr]

lemma listStep_halt {ε : Type _} (s3 : ListObjectsV2Request → ListResult ε)
    (factory : Unit → ListObjectsV2Request) :
    listStep s3 factory (none, false) = none := by
  simp [listStep]

lemma listPages_none_false {ε : Type _} (s3 : ListObjectsV2Request → ListResult ε)
    (factory : Unit → ListObjectsV2Request) (fuel : Nat) :
    listPages s3 factory fuel (none, false) = [] := by
  cases fuel with
  | zero => rfl
  | succ n => simp [listPages, listStep]

lemma listPages_cons {ε : Type _} (s3 : ListObjectsV2Request → ListResult ε)
    (factory : Unit → ListObjectsV2Request) (fuel : Nat) (cont : Option String)
    (first : Bool) (h : ¬(cont = none ∧ first = false)) :
    listPages s3 factory (fuel + 1) (cont, first)
      = s3 (issuedReq factory cont)
        :: listPages s3 factory fuel
            (nextContOf (s3 (issuedReq factory cont)), false) := by
  simp [listPages, listStep_eq s3 factory cont first h]

lemma listPages_ne_nil {ε : Type _} (s3 : ListObjectsV2Request → ListResult ε)
    (factory : Unit → ListObjectsV2Request) (fuel : Nat) (cont : Option String)
    (first : Bool) (hf : 0 < fuel) (h : ¬(cont = none ∧ first = false)) :
    listPages s3 factory fuel (cont, first) ≠ [] := by
  cases fuel with
  | zero => omega
  | succ n => rw [listPages_cons s3 factory n cont first h]; simp

lemma tokenAt_cons {ε : Type _} (c : Option String) (r : ListResult ε)
    (rest : List (ListResult ε)) (i : Nat) :
    tokenAt c (r :: rest) (i + 1) = tokenAt (nextContOf r) rest i := by
  cases i <;> rfl

lemma listPages_get_eq {ε : Type _} (s3 : ListObjectsV2Request → ListResult ε)
    (factory : Unit → ListObjectsV2Request) :
    ∀ (fuel : Nat) (cont : Option String) (first : Bool) (i : Nat) (r : ListResult ε),
      (listPages s3 factory fuel (cont, first)).get? i = some r →
      r = s3 (issuedReq factory
            (tokenAt cont (listPages s3 factory fuel (cont, first)) i)) := by
  intro fuel
  induction fuel with
  | zero => intro cont first i r h; simp [listPages] at h
  | succ fuel ih =>
    intro cont first i r h
    by_cases hh : cont = none ∧ first = false
    · obtain ⟨h1, h2⟩ := hh
      subst h1; subst h2
      rw [listPages_none_false] at h
      simp at h
    · rw [listPages_cons s3 factory fuel cont first hh] at h ⊢
      cases i with
      | zero =>
        simp only [List.get?_cons_zero, Option.some_inj] at h
        exact h.symm
      | succ j =>
        rw [tokenAt_cons]
        rw [List.get?_cons_succ] at h
        exact ih _ false j r h

lemma listPages_mid_token {ε : Type _} (s3 : ListObjectsV2Request → ListResult ε)
    (factory : Unit → ListObjectsV2Request) :
    ∀ (fuel : Nat) (cont : Option String) (first : Bool) (i : Nat) (r r' : ListResult ε),
      (listPages s3 factory fuel (cont, first)).get? i = some r →
      (listPages s3 factory fuel (cont, first)).get? (i + 1) = some r' →
      nextContOf r ≠ none := by
  intro fuel
  induction fuel with
  | zero => intro cont first i r r' h h'; simp [listPages] at h
  | succ fuel ih =>
    intro cont first i r r' h h'
    by_cases hh : cont = none ∧ first = false
    · obtain ⟨h1, h2⟩ := hh
      subst h1; subst h2
      rw [listPages_none_false] at h
      simp at h
    · rw [listPages_cons s3 factory fuel cont first hh] at h h'
      cases i with
      | zero =>
        simp only [List.get?_cons_zero, Option.some_inj] at h
        rw [List.get?_cons_succ] at h'
        intro hnone
        have hne : listPages s3 factory fuel
            (nextContOf (s3 (issuedReq factory cont)), false) ≠ [] := by
          intro hnil
          rw [hnil] at h'
          simp at h'
        rw [h, hnone] at hne
        exact hne (listPages_none_false s3 factory fuel)
      | succ j =>
        rw [List.get?_cons_succ] at h h'
        exact ih _ false j r r' h h'

lemma listPages_last_token {ε : Type _} (s3 : ListObjectsV2Request → ListResult ε)
    (factory : Unit → ListObjectsV2Request) :
    ∀ (fuel : Nat) (cont : Option String) (first : Bool) (r : ListResult ε),
      (listPages s3 factory fuel (cont, first)).length < fuel →
      (listPages s3 factory fuel (cont, first)).getLast? = some r →
      nextContOf r = none := by
  intro fuel
  induction fuel with
  | zero => intro cont first r hlen h; omega
  | succ fuel ih =>
    intro cont first r hlen h
    by_cases hh : cont = none ∧ first = false
    · obtain ⟨h1, h2⟩ := hh
      subst h1; subst h2
      rw [listPages_none_false] at h
      simp at h
    · rw [listPages_cons s3 factory fuel cont first hh] at hlen h
      rcases hrest : listPages s3 factory fuel
          (nextContOf (s3 (issuedReq factory cont)), false) with
        _ | ⟨r', rest'⟩
      · rw [hrest] at h hlen
        simp only [List.getLast?_singleton, Option.some_inj] at h
        subst h
        by_contra hcont
        have hf : 0 < fuel := by simpa using hlen
        exact listPages_ne_nil s3 factory fuel _ false hf (by simp [hcont]) hrest
      · rw [hrest] at h hlen
        rw [List.getLast?_cons_cons] at h
        rw [← hrest] at h
        refine ih _ false r ?_ h
        rw [hrest]
        simp only [List.length_cons] at hlen ⊢
        omega

/-- C2: the page stream produced by list_objects starts in
continuation state (token = none, first = true); each pulled page is
the response to exactly one listing request carrying the continuation
token in effect at that point (none for the first page, the previous
page's captured token afterwards); the stream is never empty (the
first request is always issued); no page followed by another page
lacks a next continuation token; and when the stream terminates within
the fuel bound, its last page carries no next continuation token. -/
theorem list_objects_pagination_spec {ε : Type _}
    (s3 : ListObjectsV2Request → ListResult ε)
    (factory : Unit → ListObjectsV2Request) (fuel : Nat) (hfuel : 0 < fuel) :
    list_objects s3 factory fuel = listPages s3 factory fuel (none, true)
    ∧ list_objects s3 factory fuel ≠ []
    ∧ (∀ (i : Nat) (r : ListResult ε),
        (list_objects s3 factory fuel).get? i = some r →
        r = s3 (issuedReq factory (tokenAt none (list_objects s3 factory fuel) i)))
    ∧ (∀ (i : Nat) (r r' : ListResult ε),
        (list_objects s3 factory fuel).get? i = some r →
        (list_objects s3 factory fuel).get? (i + 1) = some r' →
        nextContOf r ≠ none)
    ∧ ((list_objects s3 factory fuel).length < fuel →
        ∀ r : ListResult ε,
          (list_objects s3 factory fuel).getLast? = some r →
          nextContOf r = none) := by
  refine ⟨rfl, ?_, ?_, ?_, ?_⟩
  · exact listPages_ne_nil s3 factory fuel none true hfuel (by simp)
  · intro i r h
    exact listPages_get_eq s3 factory fuel none true i r h
  · intro i r r' h h'
    exact listPages_mid_token s3 factory fuel none true i r r' h h'
  · intro hlen r h
    exact listPages_last_token s3 factory fuel none true r hlen h

/-- Witness for C2: the pagination specification instantiated at a
client that always answers with an empty final page. -/
theorem list_objects_pagination_spec_witness :
    list_objects (fun _ => (Except.ok ⟨none, none⟩ : ListResult Unit))
        (fun _ => ⟨"b", none, none⟩) 3
      = listPages (fun _ => (Except.ok ⟨none, none⟩ : ListResult Unit))
          (fun _ => ⟨"b", none, none⟩) 3 (none, true)
    ∧ list_objects (fun _ => (Except.ok ⟨none, none⟩ : ListResult Unit))
        (fun _ => ⟨"b", none, none⟩) 3 ≠ []
    ∧ (∀ (i : Nat) (r : ListResult Unit),
        (list_objects (fun _ => (Except.ok ⟨none, none⟩ : ListResult Unit))
          (fun _ => ⟨"b", none, none⟩) 3).get? i = some r →
        r = (fun _ => (Except.ok ⟨none, none⟩ : ListResult Unit))
          (issuedReq (fun _ => ⟨"b", none, none⟩)
            (tokenAt none
              (list_objects (fun _ => (Except.ok ⟨none, none⟩ : ListResult Unit))
                (fun _ => ⟨"b", none, none⟩) 3) i)))
    ∧ (∀ (i : Nat) (r r' : ListResult Unit),
        (list_objects (fun _ => (Except.ok ⟨none, none⟩ : ListResult Unit))
          (fun _ => ⟨"b", none, none⟩) 3).get? i = some r →
        (list_objects (fun _ => (Except.ok ⟨none, none⟩ : ListResult Unit))
          (fun _ => ⟨"b", none, none⟩) 3).get? (i + 1) = some r' →
        nextContOf r ≠ none)
    ∧ ((list_objects (fun _ => (Except.ok ⟨none, none⟩ : ListResult Unit))
          (fun _ => ⟨"b", none, none⟩) 3).length < 3 →
        ∀ r : ListResult Unit,
          (list_objects (fun _ => (Except.ok ⟨none, none⟩ : ListResult Unit))
            (fun _ => ⟨"b", none, none⟩) 3).getLast? = some r →
          nextContOf r = none) :=
  list_objects_pagination_spec (fun _ => (Except.ok ⟨none, none⟩ : ListResult Unit))
    (fun _ => ⟨"b", none, none⟩) 3 (by decide)

/-- C3: when a listing request made by the page stream errors, the
step yields the error as the page item with the next continuation
token set to none, and the remaining stream is empty: no further
listing request is issued for any remaining fuel. -/
theorem list_objects_error_page {ε : Type _}
    (s3 : ListObjectsV2Request → ListResult ε)
    (factory : Unit → ListObjectsV2Request) (fuel : Nat)
    (cont : Option String) (first : Bool) (e : ε)
    (hstate : ¬(cont = none ∧ first = false))
    (herr : s3 (issuedReq factory cont) = .error e) :
    listStep s3 factory (cont, first) = some (.error e, (none, false))
    ∧ listPages s3 factory (fuel + 1) (cont, first) = [.error e] := by
  constructor
  · rw [listStep_eq s3 factory cont first hstate, herr]
    simp [nextContOf]
  · rw [listPages_cons s3 factory fuel cont first hstate, herr]
    simp [nextContOf, listPages_none_false]

/-- Witness for C3: a client that always fails, starting from the
initial state; the stream is exactly the one error page. -/
theorem list_objects_error_page_witness :
    listStep (fun _ => (Except.error () : ListResult Unit))
        (fun _ => ⟨"b", none, none⟩) (none, true)
      = some (.error (), (none, false))
    ∧ listPages (fun _ => (Except.error () : ListResult Unit))
        (fun _ => ⟨"b", none, none⟩) (4 + 1) (none, true) = [.error ()] :=
  list_objects_error_page (fun _ => (Except.error () : ListResult Unit))
    (fun _ => ⟨"b", none, none⟩) 4 none true () (by decide) rfl

/-! ### C4: ListObjects::flatten -/

/-- C4 counterexample: on a page holding a single object with neither
key nor size, flatten yields that object; the claim says it is
discarded. -/
theorem flatten_keeps_keyless_entry :
    flattenLO [(Except.ok ⟨some [⟨none, none⟩], none⟩ : ListResult Unit)]
      = [Except.ok ⟨none, none⟩]
    ∧ flattenLO [(Except.ok ⟨some [⟨none, none⟩], none⟩ : ListResult Unit)]
      ≠ flattenClaimed [(Except.ok ⟨some [⟨none, none⟩], none⟩ : ListResult Unit)] := by
  constructor
  · decide
  · decide

lemma flattenLO_eq {ε : Type _} (pages : List (ListResult ε)) :
    flattenLO pages
      = pages.flatMap fun r =>
          match r with
          | .ok p => (p.contents.getD []).map Except.ok
          | .error e => [.error e] := by
  induction pages with
  | nil => rfl
  | cons r rest ih =>
    cases r with
    | error e =>
      simpa [flattenLO, tryFilterMapL, mapOkL, tryFlattenL] using ih
    | ok p =>
      cases hc : p.contents with
      | none => simpa [flattenLO, tryFilterMapL, mapOkL, tryFlattenL, hc] using ih
      | some l => simpa [flattenLO, tryFilterMapL, mapOkL, tryFlattenL, hc] using ih

/-- C4 amended: flatten yields exactly the individual entries of each
ok page's contents list, in order, with error pages passed through as
error items; entries missing a key or a size are not discarded here
(that filtering happens only inside download_all_stream and
copy_all_stream). -/
theorem flatten_amended {ε : Type _} (pages : List (ListResult ε)) :
    flattenLO pages
      = pages.flatMap fun r =>
          match r with
          | .ok p => (p.contents.getD []).map Except.ok
          | .error e => [.error e] :=
  flattenLO_eq pages

/-! ### C5: delete_all -/

lemma runDeletes_ok {ε : Type _} (bucket : String)
    (del : DeleteObjectsCall → Except ε Unit) :
    ∀ items : List (Except ε (List S3Object)),
      (runDeletes bucket del items).2 = .ok () →
      (∀ it ∈ items, ∃ c, it = .ok c)
      ∧ (runDeletes bucket del items).1
          = items.filterMap (fun it =>
              match it with
              | .ok contents =>
                some (⟨10, bucket, contents.filterMap fun obj => obj.key⟩ :
                  DeleteObjectsCall)
              | .error _ => none)
      ∧ ∀ call ∈ (runDeletes bucket del items).1, del call = .ok () := by
  intro items
  induction items with
  | nil => intro _; exact ⟨by simp, rfl, by simp [runDeletes]⟩
  | cons it rest ih =>
    intro h
    cases it with
    | error e => simp [runDeletes] at h
    | ok contents =>
      rcases hdel : del ⟨10, bucket, contents.filterMap fun obj => obj.key⟩ with e | u
      · simp [runDeletes, hdel] at h
      · cases u
        have hrest : (runDeletes bucket del rest).2 = .ok () := by
          simpa [runDeletes, hdel] using h
        obtain ⟨h1, h2, h3⟩ := ih hrest
        refine ⟨?_, ?_, ?_⟩
        · intro x hx
          rcases List.mem_cons.mp hx with hx | hx
          · exact ⟨contents, hx⟩
          · exact h1 x hx
        · simp [runDeletes, hdel, List.filterMap_cons, h2]
        · intro call hcall
          have : call ∈ (⟨10, bucket, contents.filterMap fun obj => obj.key⟩ :
              DeleteObjectsCall) :: (runDeletes bucket del rest).1 := by
            simpa [runDeletes, hdel] using hcall
          rcases List.mem_cons.mp this with hc | hc
          · rw [hc]; exact hdel
          · exact h3 call hc

/-- C5: when delete_all resolves successfully, every listing page was
an ok page, exactly one batched delete_objects request was issued per
page carrying a contents list — against the listing's bucket, naming
exactly the keys of that page's records — and every such batched
delete call succeeded. -/
theorem delete_all_spec {ε : Type _} (bucket : String)
    (del : DeleteObjectsCall → Except ε Unit) (pages : List (ListResult ε))
    (h : (delete_all bucket del pages).2 = .ok ()) :
    (∀ r ∈ pages, ∃ p, r = .ok p)
    ∧ (delete_all bucket del pages).1
        = pages.filterMap (fun r =>
            match r with
            | .ok p => p.contents.map fun contents =>
                (⟨10, bucket, contents.filterMap fun obj => obj.key⟩ :
                  DeleteObjectsCall)
            | .error _ => none)
    ∧ ∀ call ∈ (delete_all bucket del pages).1, del call = .ok () := by
  obtain ⟨h1, h2, h3⟩ := runDeletes_ok bucket del (deleteAllItems pages) h
  refine ⟨?_, ?_, h3⟩
  · intro r hr
    cases r with
    | ok p => exact ⟨p, rfl⟩
    | error e =>
      exfalso
      have hmem : (Except.error e : Except ε (List S3Object)) ∈ deleteAllItems pages :=
        List.mem_filterMap.mpr ⟨.error e, hr, rfl⟩
      obtain ⟨c, hc⟩ := h1 _ hmem
      simp at hc
  · have : (delete_all bucket del pages).1
        = (deleteAllItems pages).filterMap (fun it =>
            match it with
            | .ok contents =>
              some (⟨10, bucket, contents.filterMap fun obj => obj.key⟩ :
                DeleteObjectsCall)
            | .error _ => none) := h2
    rw [this, deleteAllItems, List.filterMap_filterMap]
    congr 1
    funext r
    cases r with
    | error e => rfl
    | ok p => cases hc : p.contents <;> simp [hc]

/-- Witness for C5: one page with one keyed record, all deletes
succeed. -/
theorem delete_all_spec_witness :
    (∀ r ∈ [(Except.ok ⟨some [⟨some "k", some 1⟩], none⟩ : ListResult Unit)],
      ∃ p, r = .ok p)
    ∧ (delete_all "b" (fun _ => .ok ())
        [(Except.ok ⟨some [⟨some "k", some 1⟩], none⟩ : ListResult Unit)]).1
        = [(Except.ok ⟨some [⟨some "k", some 1⟩], none⟩ : ListResult Unit)].filterMap
            (fun r =>
              match r with
              | .ok p => p.contents.map fun contents =>
                  (⟨10, "b", contents.filterMap fun obj => obj.key⟩ :
                    DeleteObjectsCall)
              | .error _ => none)
    ∧ ∀ call ∈ (delete_all "b" (fun _ => .ok ())
        [(Except.ok ⟨some [⟨some "k", some 1⟩], none⟩ : ListResult Unit)]).1,
        (fun _ => (.ok () : Except Unit Unit)) call = .ok () :=
  delete_all_spec "b" (fun _ => .ok ())
    [(Except.ok ⟨some [⟨some "k", some 1⟩], none⟩ : ListResult Unit)] (by decide)

/-! ### C6: copy_all_stream -/

lemma tryFilterMapL_append {ε α β : Type _} (f : α → Option β)
    (l₁ l₂ : List (Except ε α)) :
    tryFilterMapL f (l₁ ++ l₂) = tryFilterMapL f l₁ ++ tryFilterMapL f l₂ := by
  induction l₁ with
  | nil => rfl
  | cons it rest ih =>
    cases it with
    | ok a => simp [tryFilterMapL, ih]
    | error e => simp [tryFilterMapL, ih]

lemma tryFilterMapL_map_ok {ε α β : Type _} (f : α → Option β) (l : List α) :
    tryFilterMapL (ε := ε) f (l.map .ok) = (l.filterMap f).map .ok := by
  induction l with
  | nil => rfl
  | cons a rest ih =>
    cases hf : f a <;> simp [tryFilterMapL, List.filterMap_cons, hf, ih]

lemma objectsKS_eq {ε : Type _} (pages : List (ListResult ε)) :
    objectsKS pages
      = pages.flatMap fun r =>
          match r with
          | .ok p => ((p.contents.getD []).filterMap fun obj =>
              obj.key.bind fun key => obj.size.map fun size => (key, size)).map
                Except.ok
          | .error e => [.error e] := by
  rw [objectsKS, flattenLO_eq]
  induction pages with
  | nil => rfl
  | cons r rest ih =>
    cases r with
    | error e =>
      simp only [List.flatMap_cons, tryFilterMapL_append, ih]
      simp [tryFilterMapL]
    | ok p =>
      simp only [List.flatMap_cons, tryFilterMapL_append, ih]
      simp [tryFilterMapL_map_ok]

/-- C6: copy_all_stream emits one item per flattened page element:
each error item passes through; each (key, size) record with both
fields present gives rise to one copy_object request whose copy_source
is source bucket slash source key, whose destination bucket is
dest_bucket when supplied (the source bucket otherwise), and whose
destination key is mapping(key), issued with retry budget 10; on
success of that request the stream yields the original source key,
and on failure the request's error. -/
theorem copy_all_stream_spec {ε : Type _} (bucket : String)
    (dest_bucket : Option String) (mapping : String → String)
    (default_request : Unit → CopyObjectRequest)
    (copyFn : Nat → CopyObjectRequest → Except ε Unit)
    (pages : List (ListResult ε)) :
    copy_all_stream bucket dest_bucket mapping default_request copyFn pages
      = (pages.flatMap fun r =>
          match r with
          | .ok p => ((p.contents.getD []).filterMap fun obj =>
              obj.key.bind fun key => obj.size.map fun size => (key, size)).map
                Except.ok
          | .error e => [.error e]).map
          fun it =>
            match it with
            | .ok ks =>
              (some (⟨10, { default_request () with
                  copy_source := bucket ++ "/" ++ ks.1
                  bucket := dest_bucket.getD bucket
                  key := mapping ks.1 }⟩ : CopyCall),
               (copyFn 10 { default_request () with
                  copy_source := bucket ++ "/" ++ ks.1
                  bucket := dest_bucket.getD bucket
                  key := mapping ks.1 }).map fun _ => ks.1)
            | .error e => (none, .error e) := by
  simp only [copy_all_stream, andThenTraceL, objectsKS_eq]
  apply List.map_congr_left
  intro it _
  cases it with
  | error e => rfl
  | ok ks => rfl

/-! ### C7: move_all -/

lemma moveDeletes_ok {ε : Type _} (src_bucket : String)
    (deleteFn : Nat → DeleteObjectRequest → Except ε Unit) :
    ∀ items : List (Except ε String),
      (moveDeletes src_bucket deleteFn items).2 = .ok () →
      (∀ it ∈ items, ∃ k, it = .ok k)
      ∧ (moveDeletes src_bucket deleteFn items).1
          = items.filterMap (fun it =>
              match it with
              | .ok k => some (⟨10, ⟨src_bucket, k⟩⟩ : DeleteObjectCall)
              | .error _ => none)
      ∧ ∀ c ∈ (moveDeletes src_bucket deleteFn items).1,
          deleteFn c.attempts c.req = .ok () := by
  intro items
  induction items with
  | nil => intro _; exact ⟨by simp, rfl, by simp [moveDeletes]⟩
  | cons it rest ih =>
    intro h
    cases it with
    | error e => simp [moveDeletes] at h
    | ok k =>
      rcases hdel : deleteFn 10 ⟨src_bucket, k⟩ with e | u
      · simp [moveDeletes, hdel] at h
      · cases u
        have hrest : (moveDeletes src_bucket deleteFn rest).2 = .ok () := by
          simpa [moveDeletes, hdel] using h
        obtain ⟨h1, h2, h3⟩ := ih hrest
        refine ⟨?_, ?_, ?_⟩
        · intro x hx
          rcases List.mem_cons.mp hx with hx | hx
          · exact ⟨k, hx⟩
          · exact h1 x hx
        · simp [moveDeletes, hdel, List.filterMap_cons, h2]
        · intro c hc
          have : c ∈ (⟨10, ⟨src_bucket, k⟩⟩ : DeleteObjectCall)
              :: (moveDeletes src_bucket deleteFn rest).1 := by
            simpa [moveDeletes, hdel] using hc
          rcases List.mem_cons.mp this with hcc | hcc
          · rw [hcc]; exact hdel
          · exact h3 c hcc

/-- C7: when move_all resolves successfully, every item of the
copy_all_stream result is a successfully copied source key; for each
such key exactly one delete_object request was issued against the
source bucket with exactly that key (retry budget 10), in stream
order; and every one of those delete calls succeeded. -/
theorem move_all_spec {ε : Type _} (bucket : String)
    (dest_bucket : Option String) (mapping : String → String)
    (default_request : Unit → CopyObjectRequest)
    (copyFn : Nat → CopyObjectRequest → Except ε Unit)
    (deleteFn : Nat → DeleteObjectRequest → Except ε Unit)
    (pages : List (ListResult ε))
    (h : (move_all bucket dest_bucket mapping default_request copyFn deleteFn
        pages).2.2 = .ok ()) :
    (∀ it ∈ (copy_all_stream bucket dest_bucket mapping default_request copyFn
        pages).map Prod.snd, ∃ k, it = .ok k)
    ∧ (move_all bucket dest_bucket mapping default_request copyFn deleteFn
        pages).2.1
        = ((copy_all_stream bucket dest_bucket mapping default_request copyFn
            pages).map Prod.snd).filterMap (fun it =>
              match it with
              | .ok k => some (⟨10, ⟨bucket, k⟩⟩ : DeleteObjectCall)
              | .error _ => none)
    ∧ ∀ c ∈ (move_all bucket dest_bucket mapping default_request copyFn deleteFn
        pages).2.1, deleteFn c.attempts c.req = .ok () :=
  moveDeletes_ok bucket deleteFn
    ((copy_all_stream bucket dest_bucket mapping default_request copyFn
      pages).map Prod.snd) h

/-- Witness for C7: one record, copy and delete both succeed. -/
theorem move_all_spec_witness :
    (∀ it ∈ (copy_all_stream (ε := Unit) "b" none (fun k => k)
        (fun _ => ⟨"", "", "", ""⟩) (fun _ _ => .ok ())
        [.ok ⟨some [⟨some "k", some 1⟩], none⟩]).map Prod.snd, ∃ k, it = .ok k)
    ∧ (move_all (ε := Unit) "b" none (fun k => k) (fun _ => ⟨"", "", "", ""⟩)
        (fun _ _ => .ok ()) (fun _ _ => .ok ())
        [.ok ⟨some [⟨some "k", some 1⟩], none⟩]).2.1
        = ((copy_all_stream (ε := Unit) "b" none (fun k => k)
            (fun _ => ⟨"", "", "", ""⟩) (fun _ _ => .ok ())
            [.ok ⟨some [⟨some "k", some 1⟩], none⟩]).map Prod.snd).filterMap
            (fun it =>
              match it with
              | .ok k => some (⟨10, ⟨"b", k⟩⟩ : DeleteObjectCall)
              | .error _ => none)
    ∧ ∀ c ∈ (move_all (ε := Unit) "b" none (fun k => k)
        (fun _ => ⟨"", "", "", ""⟩) (fun _ _ => .ok ()) (fun _ _ => .ok ())
        [.ok ⟨some [⟨some "k", some 1⟩], none⟩]).2.1,
        (fun _ _ => (.ok () : Except Unit Unit)) c.attempts c.req = .ok () :=
  move_all_spec "b" none (fun k => k) (fun _ => ⟨"", "", "", ""⟩)
    (fun _ _ => .ok ()) (fun _ _ => .ok ())
    [.ok ⟨some [⟨some "k", some 1⟩], none⟩] (by decide)

/-! ### C8: move_to_prefix -/

lemma trimGo_spec (pat : List Char) :
    ∀ (fuel : Nat) (s : List Char), s.length ≤ fuel →
      ∃ (n : Nat) (rest : List Char),
        s = (List.replicate n pat).flatten ++ rest
        ∧ trimStartMatchesGo pat fuel s = rest
        ∧ (pat = [] ∨ ¬ pat <+: rest) := by
  intro fuel
  induction fuel with
  | zero =>
    intro s hs
    have hnil : s = [] := List.eq_nil_of_length_eq_zero (Nat.le_zero.mp hs)
    subst hnil
    refine ⟨0, [], by simp, rfl, ?_⟩
    cases pat with
    | nil => exact Or.inl rfl
    | cons c cs =>
      right
      intro hp
      have := hp.length_le
      simp at this
  | succ fuel ih =>
    intro s hs
    by_cases hcond : pat ≠ [] ∧ pat <+: s
    · obtain ⟨hne, hpre⟩ := hcond
      obtain ⟨t, ht⟩ := hpre
      have hdrop : s.drop pat.length = t := by rw [← ht]; simp
      have hlen : t.length ≤ fuel := by
        have hlength := congrArg List.length ht
        simp at hlength
        have hp : 0 < pat.length := List.length_pos.mpr hne
        omega
      obtain ⟨n, rest, h1, h2, h3⟩ := ih t hlen
      refine ⟨n + 1, rest, ?_, ?_, h3⟩
      · rw [← ht, h1]
        simp [List.replicate_succ]
      · have hif : pat ≠ [] ∧ pat <+: s := ⟨hne, ⟨t, ht⟩⟩
        simp only [trimStartMatchesGo, if_pos hif]
        rw [hdrop]
        exact h2
    · refine ⟨0, s, by simp, ?_, ?_⟩
      · simp only [trimStartMatchesGo, if_neg hcond]
      · rcases Classical.em (pat = []) with hp | hp
        · exact Or.inl hp
        · right
          intro hpre
          exact hcond ⟨hp, hpre⟩

/-- C8 amended: the mapping that move_to_prefix passes to move_all
sends a listed key to the new prefix followed by the key with every
leading repetition of the listing's captured common prefix removed
(Rust str::trim_start_matches strips the matching prefix repeatedly,
not once), leaving the remainder of the key unchanged. -/
theorem moveToPrefix_mapping_amended (newPre oldPre key : String) :
    ∃ (n : Nat) (rest : List Char),
      key.data = (List.replicate n oldPre.data).flatten ++ rest
      ∧ substitutePrefixFn newPre oldPre key = newPre ++ String.mk rest
      ∧ (oldPre.data = [] ∨ ¬ oldPre.data <+: rest) := by
  obtain ⟨n, rest, h1, h2, h3⟩ :=
    trimGo_spec oldPre.data key.data.length key.data le_rfl
  refine ⟨n, rest, h1, ?_, h3⟩
  rw [substitutePrefixFn, trim_start_matches, h2]

/-- C8 counterexample: with captured listing prefix a/ and new prefix
c/, the key a/a/x is mapped to destination key c/x — every leading
copy of a/ is stripped — whereas stripping the prefix once from the
start of the key would give c/a/x; shown on the copy request issued by
move_to_prefix. -/
theorem moveToPrefix_strips_repeatedly :
    ((moveToPrefix (ε := Unit) "b" "a/" none "c/" (fun _ => ⟨"", "", "", ""⟩)
        (fun _ _ => .ok ()) (fun _ _ => .ok ())
        [.ok ⟨some [⟨some "a/a/x", some 3⟩], none⟩]).1.map fun c => c.req.key)
      = ["c/x"]
    ∧ ("c/x" : String) ≠ "c/" ++ "a/x" := by
  constructor
  · decide
  · decide

/-! ### C10: hard-coded retry budget of 10 -/

lemma andThenTrace_calls_mem {ε α β τ : Type _} (f : α → τ × Except ε β)
    (items : List (Except ε α)) (t : τ)
    (h : t ∈ (andThenTraceL f items).filterMap Prod.fst) :
    ∃ a, t = (f a).1 := by
  rw [List.mem_filterMap] at h
  obtain ⟨x, hx, hfst⟩ := h
  rw [andThenTraceL, List.mem_map] at hx
  obtain ⟨it, _, rfl⟩ := hx
  cases it with
  | ok a =>
    refine ⟨a, ?_⟩
    simpa using hfst.symm
  | error e => simp at hfst

lemma runDeletes_attempts {ε : Type _} (bucket : String)
    (del : DeleteObjectsCall → Except ε Unit) :
    ∀ items, ∀ c ∈ (runDeletes bucket del items).1, c.attempts = 10 := by
  intro items
  induction items with
  | nil => intro c hc; simp [runDeletes] at hc
  | cons it rest ih =>
    intro c hc
    cases it with
    | error e => simp [runDeletes] at hc
    | ok contents =>
      rcases hdel : del ⟨10, bucket, contents.filterMap fun obj => obj.key⟩ with e | u
      · simp [runDeletes, hdel] at hc
        rw [hc]
      · have hmem : c ∈ (⟨10, bucket, contents.filterMap fun obj => obj.key⟩ :
            DeleteObjectsCall) :: (runDeletes bucket del rest).1 := by
          simpa [runDeletes, hdel] using hc
        rcases List.mem_cons.mp hmem with hcc | hcc
        · rw [hcc]
        · exact ih c hcc

lemma moveDeletes_attempts {ε : Type _} (src_bucket : String)
    (deleteFn : Nat → DeleteObjectRequest → Except ε Unit) :
    ∀ items, ∀ c ∈ (moveDeletes src_bucket deleteFn items).1, c.attempts = 10 := by
  intro items
  induction items with
  | nil => intro c hc; simp [moveDeletes] at hc
  | cons it rest ih =>
    intro c hc
    cases it with
    | error e => simp [moveDeletes] at hc
    | ok k =>
      rcases hdel : deleteFn 10 ⟨src_bucket, k⟩ with e | u
      · simp [moveDeletes, hdel] at hc
        rw [hc]
      · have hmem : c ∈ (⟨10, ⟨src_bucket, k⟩⟩ : DeleteObjectCall)
            :: (moveDeletes src_bucket deleteFn rest).1 := by
          simpa [moveDeletes, hdel] using hc
        rcases List.mem_cons.mp hmem with hcc | hcc
        · rw [hcc]
        · exact ih c hcc

/-- C10: every retry-engine invocation recorded by the bulk
operations — download_all_stream's get_object call,
delete_all's delete_objects call, copy_all_stream's copy_object call,
and move_all's paired delete_object call — carries the hard-coded
maximum attempt count 10, for all inputs and configurations. -/
theorem bulk_retry_budget_ten {ε β : Type _}
    (bucketD : String) (drG : Unit → GetObjectRequest)
    (getFn : Nat → GetObjectRequest → Except ε (GetObjectOutput β))
    (pagesD : List (ListResult ε))
    (bucketX : String) (del : DeleteObjectsCall → Except ε Unit)
    (pagesX : List (ListResult ε))
    (bucketC : String) (destC : Option String) (mapC : String → String)
    (drC : Unit → CopyObjectRequest)
    (copyFn : Nat → CopyObjectRequest → Except ε Unit)
    (deleteFn : Nat → DeleteObjectRequest → Except ε Unit)
    (pagesC : List (ListResult ε)) :
    (((download_all_raw bucketD drG getFn pagesD).filterMap Prod.fst).all
        fun c => c.attempts == 10) = true
    ∧ (((delete_all bucketX del pagesX).1).all fun c => c.attempts == 10) = true
    ∧ (((copy_all_stream bucketC destC mapC drC copyFn pagesC).filterMap
        Prod.fst).all fun c => c.attempts == 10) = true
    ∧ (((move_all bucketC destC mapC drC copyFn deleteFn pagesC).1).all
        fun c => c.attempts == 10) = true
    ∧ (((move_all bucketC destC mapC drC copyFn deleteFn pagesC).2.1).all
        fun c => c.attempts == 10) = true := by
  refine ⟨?_, ?_, ?_, ?_, ?_⟩
  · rw [List.all_eq_true]
    intro c hc
    obtain ⟨a, rfl⟩ := andThenTrace_calls_mem _ _ c hc
    simp
  · rw [List.all_eq_true]
    intro c hc
    have := runDeletes_attempts bucketX del (deleteAllItems pagesX) c hc
    simp [this]
  · rw [List.all_eq_true]
    intro c hc
    obtain ⟨a, rfl⟩ := andThenTrace_calls_mem _ _ c hc
    simp
  · rw [List.all_eq_true]
    intro c hc
    obtain ⟨a, rfl⟩ := andThenTrace_calls_mem _ _ c hc
    simp
  · rw [List.all_eq_true]
    intro c hc
    have := moveDeletes_attempts bucketC deleteFn
      ((copy_all_stream bucketC destC mapC drC copyFn pagesC).map Prod.snd) c hc
    simp [this]

/-! ### C1: upload callback ordering -/

lemma drainRB_inv (A : Finset Nat) :
    ∀ (buf : Finset Nat) (next : Nat) (out : List Nat),
      out = List.range next → buf = A \ Finset.range next →
      Finset.range next ⊆ A → RBInv A (drainRB buf next out) := by
  intro buf next out
  induction buf, next, out using drainRB.induct with
  | case1 buf next out hmem ih =>
    intro hout hbuf hsub
    rw [drainRB, dif_pos hmem]
    apply ih
    · rw [hout, List.range_succ]
    · rw [hbuf]
      have hnA : next ∈ A := by
        have : next ∈ A \ Finset.range next := hbuf ▸ hmem
        exact (Finset.mem_sdiff.mp this).1
      ext x
      simp only [Finset.mem_erase, Finset.mem_sdiff, Finset.mem_range]
      by_cases hA : x ∈ A <;> simp [hA] <;> omega
    · rw [Finset.range_succ]
      refine Finset.insert_subset ?_ hsub
      have : next ∈ A \ Finset.range next := hbuf ▸ hmem
      exact (Finset.mem_sdiff.mp this).1
  | case2 buf next out hmem =>
    intro hout hbuf hsub
    rw [drainRB, dif_neg hmem]
    refine ⟨hout, hbuf, ?_, hsub⟩
    intro hA
    apply hmem
    rw [hbuf]
    exact Finset.mem_sdiff.mpr ⟨hA, by simp⟩

lemma foldl_rbStep_inv :
    ∀ (order : List Nat) (A : Finset Nat) (st : ReorderState),
      RBInv A st → order.Nodup → (∀ a ∈ order, a ∉ A) →
      RBInv (A ∪ order.toFinset) (order.foldl rbStep st) := by
  intro order
  induction order with
  | nil =>
    intro A st hInv _ _
    simpa using hInv
  | cons a rest ih =>
    intro A st hInv hnodup hfresh
    obtain ⟨h1, h2, h3, h4⟩ := hInv
    have ha : a ∉ A := hfresh a (List.mem_cons_self a rest)
    have hstep : RBInv (insert a A) (rbStep st a) := by
      apply drainRB_inv
      · exact h1
      · rw [h2]
        have hnr : ¬ a < st.next := by
          intro hr
          exact ha (h4 (Finset.mem_range.mpr hr))
        ext x
        by_cases hx : x = a
        · subst hx
          simp [Finset.mem_insert, Finset.mem_sdiff, Finset.mem_range, hnr]
        · simp [Finset.mem_insert, Finset.mem_sdiff, Finset.mem_range, hx]
      · exact h4.trans (Finset.subset_insert a A)
    have hrest : ∀ b ∈ rest, b ∉ insert a A := by
      intro b hb hmem
      rcases Finset.mem_insert.mp hmem with hba | hbA
      · exact (List.nodup_cons.mp hnodup).1 (hba ▸ hb)
      · exact hfresh b (List.mem_cons_of_mem a hb) hbA
    have hmain := ih (insert a A) (rbStep st a) hstep
      (List.nodup_cons.mp hnodup).2 hrest
    have heq : insert a A ∪ rest.toFinset = A ∪ (a :: rest).toFinset := by
      rw [List.toFinset_cons]
      ext x
      simp only [Finset.mem_insert, Finset.mem_union]
      tauto
    rw [List.foldl_cons]
    rw [← heq]
    exact hmain

/-- C1: for any number N of upload sources, any configured concurrency
bound ≥ 1 and any order in which the individual uploads complete
(modelled as an arbitrary permutation of the sequence numbers 0..N-1,
which subsumes every schedule a concurrency bound can produce), the
reorder buffer of s3_upload_files invokes the per-result callback
exactly N times and the seq fields it delivers are exactly
0, 1, …, N-1 in ascending order. -/
theorem s3_upload_files_callback_order (N : Nat) (conc : Nat) (hconc : 1 ≤ conc)
    (completionOrder : List Nat)
    (hperm : completionOrder.Perm (List.range N)) :
    uploadCallbackSeqs completionOrder = List.range N
    ∧ (uploadCallbackSeqs completionOrder).length = N := by
  have hnodup : completionOrder.Nodup := hperm.nodup_iff.mpr (List.nodup_range N)
  have hInv0 : RBInv ∅ ⟨∅, 0, []⟩ := by
    refine ⟨by simp, by simp, by simp, by simp⟩
  have hfinal := foldl_rbStep_inv completionOrder ∅ ⟨∅, 0, []⟩ hInv0 hnodup
    (by simp)
  have htf : completionOrder.toFinset = Finset.range N := by
    rw [List.toFinset_eq_of_perm _ _ hperm]
    ext x
    simp
  rw [htf, Finset.empty_union] at hfinal
  obtain ⟨h1, h2, h3, h4⟩ := hfinal
  have hle : (completionOrder.foldl rbStep ⟨∅, 0, []⟩).next ≤ N := by
    by_contra hlt
    push_neg at hlt
    have hNm : N ∈ Finset.range (completionOrder.foldl rbStep ⟨∅, 0, []⟩).next :=
      Finset.mem_range.mpr hlt
    have hNA := h4 hNm
    simp at hNA
  have hge : N ≤ (completionOrder.foldl rbStep ⟨∅, 0, []⟩).next := by
    by_contra hlt
    push_neg at hlt
    exact h3 (Finset.mem_range.mpr hlt)
  have hNN : (completionOrder.foldl rbStep ⟨∅, 0, []⟩).next = N :=
    le_antisymm hle hge
  constructor
  · rw [uploadCallbackSeqs, h1, hNN]
  · rw [uploadCallbackSeqs, h1, hNN, List.length_range]

/-- Witness for C1: three uploads completing in the order 2, 0, 1 are
still delivered to the callback as 0, 1, 2. -/
theorem s3_upload_files_callback_order_witness :
    (1 ≤ 1 ∧ [2, 0, 1].Perm (List.range 3))
    ∧ (uploadCallbackSeqs [2, 0, 1] = List.range 3
      ∧ (uploadCallbackSeqs [2, 0, 1]).length = 3) :=
  ⟨⟨by decide, by decide⟩,
   s3_upload_files_callback_order 3 1 (by decide) [2, 0, 1] (by decide)⟩

/-! ### C9: timeout lower bound and monotonicity -/

/-- C9: with a strictly positive bandwidth estimate, a nonnegative
timeout fraction and a backoff of at least one (the configuration
declares backoff > 1), get_timeout(bytes, attempt) is at least
min_timeout for every byte count and every attempt ≥ 1, and for fixed
bytes it is non-decreasing in the attempt number. -/
theorem get_timeout_spec (cfg : UploadConfig) (est : ℚ)
    (hback : 1 ≤ cfg.backoff) (hest : 0 < est)
    (hfrac : 0 ≤ cfg.timeout_fraction) :
    (∀ (bytes attempt : Nat), 1 ≤ attempt →
      cfg.min_timeout ≤ TimeoutState.get_timeout ⟨cfg, est⟩ bytes attempt)
    ∧ ∀ (bytes a b : Nat), 1 ≤ a → a ≤ b →
      TimeoutState.get_timeout ⟨cfg, est⟩ bytes a
        ≤ TimeoutState.get_timeout ⟨cfg, est⟩ bytes b := by
  constructor
  · intro bytes attempt _
    exact le_max_left _ _
  · intro bytes a b _ hab
    apply max_le_max le_rfl
    apply mul_le_mul_of_nonneg_left
    · exact pow_le_pow_right₀ hback (by omega)
    · exact div_nonneg (mul_nonneg hfrac (by positivity)) hest.le

/-- Witness for C9: the configuration of the timeout test in
src/test.rs (backoff 1.5, min_timeout 0.5, timeout_fraction 1.5) with
the estimate seeded at the expected upload speed 1. -/
theorem get_timeout_spec_witness :
    (∀ (bytes attempt : Nat), 1 ≤ attempt →
      (⟨1, 3/2, 1000000, 1/2, 3/2, 7/10⟩ : UploadConfig).min_timeout
        ≤ TimeoutState.get_timeout
            ⟨⟨1, 3/2, 1000000, 1/2, 3/2, 7/10⟩, 1⟩ bytes attempt)
    ∧ ∀ (bytes a b : Nat), 1 ≤ a → a ≤ b →
      TimeoutState.get_timeout ⟨⟨1, 3/2, 1000000, 1/2, 3/2, 7/10⟩, 1⟩ bytes a
        ≤ TimeoutState.get_timeout ⟨⟨1, 3/2, 1000000, 1/2, 3/2, 7/10⟩, 1⟩ bytes b :=
  get_timeout_spec ⟨1, 3/2, 1000000, 1/2, 3/2, 7/10⟩ 1
    (show (1 : ℚ) ≤ 3/2 by norm_num) (show (0 : ℚ) < 1 by norm_num)
    (show (0 : ℚ) ≤ 3/2 by norm_num)

end S3Algo
